import Mathlib

/-!
Verification development for the A-share market breadth monitor
(`market_api.py`).  The Python source is shallowly embedded: pure string
processing becomes Lean functions on `List Char` / `String`, Python `float`
values are modelled as exact rationals (`ℚ`) — every numeric literal and
decimal numeral occurring in the claims is order-equivalent under this
model — and fallible operations return `Option`.  Batch statistics
dictionaries become the structure `BatchStats` with `Nat` counters.
-/

namespace AStock

/-! ### Generic character-list helpers

These model the Python primitives used by `market_api.py`:
`str.split('~')`, the `in` substring test, and `float(...)` parsing of
plain decimal numerals (sign, digits, optional decimal point — the
fragment of Python float syntax exercised by the quote protocol). -/

/-- Models Python `s.split('~')` on the character list of `s`:
splits on every `'~'`, keeping empty pieces. -/
def splitT : List Char → List (List Char)
  | [] => [[]]
  | c :: rest =>
    if c = '~' then [] :: splitT rest
    else
      match splitT rest with
      | [] => [[c]]
      | piece :: pieces => (c :: piece) :: pieces

/-- Longest run of characters different from `stop`, together with the
remainder (which starts with `stop` when non-empty). -/
def spanNE (stop : Char) : List Char → List Char × List Char
  | [] => ([], [])
  | c :: rest =>
    if c = stop then ([], c :: rest)
    else
      let p := spanNE stop rest
      (c :: p.1, p.2)

/-- Boolean list-prefix test (models the start of Python `in`). -/
def isPrefL : List Char → List Char → Bool
  | [], _ => true
  | _ :: _, [] => false
  | a :: as, b :: bs => a = b && isPrefL as bs

/-- Models Python substring membership `needle in hay`. -/
def containsL (needle : List Char) : List Char → Bool
  | [] => isPrefL needle []
  | c :: rest => isPrefL needle (c :: rest) || containsL needle rest

/-- Decimal digit test. -/
def isDig (c : Char) : Bool := '0' ≤ c && c ≤ '9'

/-- Value of a big-endian list of decimal digit characters (Horner). -/
def natOfDigits (l : List Char) : Nat :=
  l.foldl (fun a c => 10 * a + (c.toNat - 48)) 0

/-- Leading run of decimal digits and the remainder. -/
def spanDigits : List Char → List Char × List Char
  | [] => ([], [])
  | c :: rest =>
    if isDig c then
      let p := spanDigits rest
      (c :: p.1, p.2)
    else ([], c :: rest)

/-- Models Python `float(s)` on an unsigned decimal numeral:
digits, optionally followed by `'.'` and more digits, at least one digit
in total, nothing else.  The result is the exact rational value
`ip + fp / 10 ^ k`, built with `mkRat` so that it evaluates. -/
def parseUnsigned (l : List Char) : Option ℚ :=
  let p := spanDigits l
  match p.2 with
  | [] => if p.1 = [] then none else some (mkRat (natOfDigits p.1) 1)
  | '.' :: fp =>
    if fp.all isDig then
      if p.1 = [] ∧ fp = [] then none
      else some (mkRat (natOfDigits p.1 * 10 ^ fp.length + natOfDigits fp) (10 ^ fp.length))
    else none
  | _ :: _ => none

/-- Models Python `float(s)` (returning `none` where `float` raises
`ValueError`), restricted to plain signed decimal numerals — the only
shapes the upstream quote feed emits for percentage fields. -/
def parseFloatL (l : List Char) : Option ℚ :=
  match l with
  | '-' :: rest => (parseUnsigned rest).map (fun q => -q)
  | '+' :: rest => parseUnsigned rest
  | _ => parseUnsigned l

/-! ### BatchStats: the per-batch counter dictionary

Models the `stats` dictionary of `_parse_and_count`
(`market_api.py` lines 164–175); the `'time'` key of the aggregate in
`_get_all_stocks_stats` is presentation metadata and carried separately. -/

/-- The ten counters of a parsed batch. -/
structure BatchStats where
  up_count : Nat
  down_count : Nat
  flat_count : Nat
  up_3pct : Nat
  down_3pct : Nat
  up_5pct : Nat
  down_5pct : Nat
  limit_up : Nat
  limit_down : Nat
  total : Nat
deriving DecidableEq, Repr

/-- The all-zero counter dictionary (`market_api.py` lines 164–175). -/
def zeroStats : BatchStats := ⟨0, 0, 0, 0, 0, 0, 0, 0, 0, 0⟩

/-- Element-wise addition of counter dictionaries, the combine step of
`_get_all_stocks_stats` (`market_api.py` lines 136–138). -/
def addStats (a b : BatchStats) : BatchStats :=
  ⟨a.up_count + b.up_count, a.down_count + b.down_count,
   a.flat_count + b.flat_count, a.up_3pct + b.up_3pct,
   a.down_3pct + b.down_3pct, a.up_5pct + b.up_5pct,
   a.down_5pct + b.down_5pct, a.limit_up + b.limit_up,
   a.limit_down + b.limit_down, a.total + b.total⟩

/-! ### The record scanner

Models `re.findall(r'v_([^=]+)="([^"]*)"', text)`: scan left to right;
at a position starting with `v_`, take the maximal non-`=` key (at least
one character), require `="`, take the maximal non-`"` value, require the
closing quote; on failure advance one character, on success resume after
the match.  (For this pattern the greedy attempt needs no backtracking:
the key run is maximal and stops exactly at the first `=`.) -/

/-- One match attempt at the head of the list: returns the key group,
the value group and the remainder after the match. -/
def tryMatch : List Char → Option (String × String × List Char)
  | 'v' :: '_' :: rest =>
    let pk := spanNE '=' rest
    if pk.1 = [] then none
    else
      match pk.2 with
      | '=' :: '"' :: rest2 =>
        let pv := spanNE '"' rest2
        match pv.2 with
        | '"' :: rest3 => some (⟨pk.1⟩, ⟨pv.1⟩, rest3)
        | _ => none
      | _ => none
  | _ => none

/-- Fuelled scan; the fuel is initialised with the text length, which
bounds the number of scan steps. -/
def findMatchesAux : Nat → List Char → List (String × String)
  | 0, _ => []
  | _ + 1, [] => []
  | fuel + 1, c :: rest =>
    match tryMatch (c :: rest) with
    | some kv => (kv.1, kv.2.1) :: findMatchesAux fuel kv.2.2
    | none => findMatchesAux fuel rest

/-- All `v_<key>="<value>"` matches of a response text, in order
(models the `re.findall` of `market_api.py` line 179). -/
def findMatches (text : String) : List (String × String) :=
  findMatchesAux text.data.length text.data

/-! ### Per-record classification (`_parse_and_count` loop body) -/

/-- The no-data sentinel checked by `'pv_none_match' in code`. -/
def noneMatchMarker : List Char := "pv_none_match".data

/-- Guard-and-extract step of the loop body (`market_api.py`
lines 181–196): returns the percentage change of a record, or `none`
when the record is skipped (empty value, literal `"1"` value, no-match
key, fewer than 33 tilde fields, empty or unparseable field 32). -/
def recordPct (m : String × String) : Option ℚ :=
  let code := m.1
  let data := m.2
  if data = "" ∨ data = "1" ∨ containsL noneMatchMarker code.data then none
  else
    let fields := splitT data.data
    if fields.length < 33 then none
    else
      let pctStr := fields.getD 32 []
      if pctStr = [] then none
      else parseFloatL pctStr

/-- Counter increments for one counted record (`market_api.py`
lines 198–223): total, sign bucket, ±3% bucket, ±5% bucket,
limit-up/limit-down bucket. -/
def bump (s : BatchStats) (pct : ℚ) : BatchStats :=
  let s1 : BatchStats := { s with total := s.total + 1 }
  let s2 : BatchStats :=
    if 0 < pct then { s1 with up_count := s1.up_count + 1 }
    else if pct < 0 then { s1 with down_count := s1.down_count + 1 }
    else { s1 with flat_count := s1.flat_count + 1 }
  let s3 : BatchStats :=
    if 3 ≤ pct then { s2 with up_3pct := s2.up_3pct + 1 }
    else if pct ≤ -3 then { s2 with down_3pct := s2.down_3pct + 1 }
    else s2
  let s4 : BatchStats :=
    if 5 ≤ pct then { s3 with up_5pct := s3.up_5pct + 1 }
    else if pct ≤ -5 then { s3 with down_5pct := s3.down_5pct + 1 }
    else s3
  if mkRat 99 10 ≤ pct then { s4 with limit_up := s4.limit_up + 1 }
  else if pct ≤ - mkRat 99 10 then { s4 with limit_down := s4.limit_down + 1 }
  else s4

/-- One iteration of the `for code, data in matches` loop: skip or
classify. -/
def countRecord (s : BatchStats) (m : String × String) : BatchStats :=
  match recordPct m with
  | none => s
  | some pct => bump s pct

/-- The counting loop over an explicit match list. -/
def parseAndCountMatches (l : List (String × String)) : BatchStats :=
  l.foldl countRecord zeroStats

/-- `_parse_and_count` (`market_api.py` lines 161–225): find all
records in the raw response text and fold the classification over them.
Total by construction — the Python original lets no exception escape. -/
def parse_and_count (text : String) : BatchStats :=
  parseAndCountMatches (findMatches text)

/-! ### Index fetcher (`_get_shanghai_index`, `market_api.py` lines 79–102)

The network request is modelled by handing the function the response text
as `Option String` (`none` = the request raised, caught by the enclosing
`try`).  An empty dictionary result becomes `none` — Python dictionary
truthiness maps empty to falsy. -/

/-- The five extracted index fields (`sh_price` … `sh_amount`). -/
structure IndexData where
  sh_price : ℚ
  sh_pre_close : ℚ
  sh_change : ℚ
  sh_pct : ℚ
  sh_amount : ℚ
deriving DecidableEq, Repr

/-- The fixed search pattern of line 88, up to the opening quote. -/
def indexPat : List Char := "v_sh000001=\"".data

/-- One search attempt at the head of the list for
`v_sh000001="([^"]*)"`: the group contents on success. -/
def tryIndexMatch (l : List Char) : Option (List Char) :=
  if isPrefL indexPat l then
    let pv := spanNE '"' (l.drop indexPat.length)
    match pv.2 with
    | '"' :: _ => some pv.1
    | _ => none
  else none

/-- Fuelled leftmost search (models `re.search` on line 88). -/
def searchIndexAux : Nat → List Char → Option (List Char)
  | 0, _ => none
  | _ + 1, [] => none
  | fuel + 1, c :: rest =>
    match tryIndexMatch (c :: rest) with
    | some v => some v
    | none => searchIndexAux fuel rest

/-- First `v_sh000001="<group>"` match of a response text. -/
def searchIndex (text : String) : Option (List Char) :=
  searchIndexAux text.data.length text.data

/-- `_get_shanghai_index` on the response: extract fields 3, 4, 31, 32
and 37 when the record has more than 37 fields and every extracted field
parses as a float; otherwise the empty dictionary (`none`).  A failed
`float(...)` raises in Python and is caught by the function-level
`except`, which also returns the empty result. -/
def get_shanghai_index (resp : Option String) : Option IndexData :=
  match resp with
  | none => none
  | some text =>
    match searchIndex text with
    | none => none
    | some g =>
      let fields := splitT g
      if 37 < fields.length then
        match parseFloatL (fields.getD 3 []), parseFloatL (fields.getD 4 []),
              parseFloatL (fields.getD 31 []), parseFloatL (fields.getD 32 []),
              parseFloatL (fields.getD 37 []) with
        | some p, some pc, some ch, some pq, some am => some ⟨p, pc, ch, pq, am⟩
        | _, _, _, _, _ => none
      else none

/-! ### Aggregator (`_get_all_stocks_stats` and `get_market_stats`)

`_fetch_batch` returns `None` on any request error (caught in-function),
so a batch outcome is `Option BatchStats`; the arrival order of
completed futures is the order of the given list.  The `'time'` stamp of
the Python dictionary is presentation metadata and not part of the
counter model.  `_get_all_stocks_stats` itself returns `None` only if
its own body raises, which the embedded pure pipeline cannot; it is kept
`Option`-valued because `get_market_stats` tests its truthiness. -/

/-- One aggregation step of `_get_all_stocks_stats`
(`market_api.py` lines 133–138): skip a failed batch (`if batch_stats:`
is false for `None`), add a successful one element-wise. -/
def addBatch (acc : BatchStats) (r : Option BatchStats) : BatchStats :=
  match r with
  | some b => addStats acc b
  | none => acc

/-- `_get_all_stocks_stats` (`market_api.py` lines 104–143): sum the
successful batch contributions, skipping failed (`none`) batches. -/
def get_all_stocks_stats (batchResults : List (Option BatchStats)) :
    Option BatchStats :=
  some (batchResults.foldl addBatch zeroStats)

/-- One produced snapshot: summed counters plus the merged index fields
(`stats.update(index_data)` on line 71). -/
structure Snapshot where
  counts : BatchStats
  index : IndexData
deriving DecidableEq, Repr

/-- `get_market_stats` (`market_api.py` lines 56–77): run the two
pipelines, then `if stats and index_data` — the stats dictionary is
always non-empty, hence truthy exactly when not `None`; the index
dictionary is truthy exactly when non-empty (`isSome`). -/
def get_market_stats (batchResults : List (Option BatchStats))
    (index_data : Option IndexData) : Option Snapshot :=
  match get_all_stocks_stats batchResults, index_data with
  | some s, some idx => some ⟨s, idx⟩
  | _, _ => none

/-! ### Symbol universe (`get_all_stock_codes`, `market_api.py` lines 24–54)

Python `str(i)` is the decimal numeral of `i`; it is modelled by
`pyStr`, a fuelled base-10 printer (little-endian digit extraction,
reversed).  `f"{i:06d}"` left-pads that numeral with `'0'` to width 6.
The class-level cache (`_stock_codes` / `_codes_loaded`) memoizes a pure
computation and is not modelled. -/

/-- Digit character for a value below 10. -/
def digitChar (d : Nat) : Char := Char.ofNat (48 + d)

/-- Little-endian base-10 digits, with explicit fuel (`fuel ≥ n`
suffices; see `decDigitsAux_eq_digits`). -/
def decDigitsAux : Nat → Nat → List Nat
  | 0, _ => []
  | fuel + 1, n => if n = 0 then [] else n % 10 :: decDigitsAux fuel (n / 10)

/-- Little-endian base-10 digits of `n`. -/
def decDigits (n : Nat) : List Nat := decDigitsAux n n

/-- Models Python `str(i)` for a natural number. -/
def pyStr (n : Nat) : String :=
  if n = 0 then "0" else ⟨((decDigits n).reverse.map digitChar)⟩

/-- Models the Python format `f"{i:06d}"`. -/
def pyFmt06 (n : Nat) : String :=
  let s := pyStr n
  ⟨List.replicate (6 - s.length) '0' ++ s.data⟩

/-- `get_all_stock_codes` (`market_api.py` lines 24–54): the fixed
symbol universe, one segment per `for` loop, in source order. -/
def get_all_stock_codes : List String :=
  ((List.range' 600000 10000).map fun i => "sh" ++ pyStr i) ++
  ((List.range' 688000 2000).map fun i => "sh" ++ pyStr i) ++
  ((List.range' 1 3999).map fun i => "sz" ++ pyFmt06 i) ++
  ((List.range' 300000 10000).map fun i => "sz" ++ pyStr i) ++
  ((List.range' 430000 10000).map fun i => "bj" ++ pyStr i) ++
  ((List.range' 830000 10000).map fun i => "bj" ++ pyStr i) ++
  ((List.range' 870000 10000).map fun i => "bj" ++ pyStr i)

/-- Numeric key of a generated symbol: the value of the digits after
the two-letter market code.  Used to transfer distinctness of the
numeric ranges to the symbol strings. -/
def numKey (s : String) : Nat := natOfDigits (s.data.drop 2)

/-- The numeric ranges of the seven segments, in source order. -/
def universeRanges : List Nat :=
  List.range' 600000 10000 ++ List.range' 688000 2000 ++
    List.range' 1 3999 ++ List.range' 300000 10000 ++
    List.range' 430000 10000 ++ List.range' 830000 10000 ++
    List.range' 870000 10000

/-! ### Counter invariant -/

/-- Consistency of a counter dictionary: the three sign buckets
partition the counted records, and each magnitude chain is monotone. -/
def StatsInv (s : BatchStats) : Prop :=
  s.up_count + s.down_count + s.flat_count = s.total ∧
  s.limit_up ≤ s.up_5pct ∧ s.up_5pct ≤ s.up_3pct ∧ s.up_3pct ≤ s.up_count ∧
  s.limit_down ≤ s.down_5pct ∧ s.down_5pct ≤ s.down_3pct ∧
  s.down_3pct ≤ s.down_count

instance (s : BatchStats) : Decidable (StatsInv s) := by
  unfold StatsInv; infer_instance

/-! ### Algebra of counter addition and of the counting fold -/

theorem addStats_zero_left (a : BatchStats) : addStats zeroStats a = a := by
  cases a; simp [addStats, zeroStats]

theorem addStats_zero_right (a : BatchStats) : addStats a zeroStats = a := by
  cases a; simp [addStats, zeroStats]

theorem addStats_comm (a b : BatchStats) : addStats a b = addStats b a := by
  cases a; cases b; simp only [addStats, BatchStats.mk.injEq]; omega

theorem addStats_assoc (a b c : BatchStats) :
    addStats (addStats a b) c = addStats a (addStats b c) := by
  cases a; cases b; cases c; simp only [addStats, BatchStats.mk.injEq]; omega

set_option maxHeartbeats 1000000 in
/-- The sequential updates of `bump` equal a single element-wise
addition of the contribution computed from the zero dictionary. -/
theorem bump_eq_addStats (s : BatchStats) (p : ℚ) :
    bump s p = addStats s (bump zeroStats p) := by
  cases s
  unfold bump
  split_ifs <;> rfl

/-- One loop iteration adds the contribution of its record. -/
theorem countRecord_eq_addStats (s : BatchStats) (m : String × String) :
    countRecord s m = addStats s (countRecord zeroStats m) := by
  unfold countRecord
  cases recordPct m with
  | none => exact (addStats_zero_right s).symm
  | some p => exact bump_eq_addStats s p

/-- Folding the loop body from any start equals start plus the fold
from zero. -/
theorem foldl_countRecord (l : List (String × String)) (s : BatchStats) :
    l.foldl countRecord s = addStats s (parseAndCountMatches l) := by
  induction l generalizing s with
  | nil => exact (addStats_zero_right s).symm
  | cons m t ih =>
    simp only [parseAndCountMatches, List.foldl_cons]
    rw [ih, ih (countRecord zeroStats m), countRecord_eq_addStats s m,
      addStats_assoc]

/-- Parsing distributes over concatenation of match lists. -/
theorem parseAndCountMatches_append (l₁ l₂ : List (String × String)) :
    parseAndCountMatches (l₁ ++ l₂) =
      addStats (parseAndCountMatches l₁) (parseAndCountMatches l₂) := by
  unfold parseAndCountMatches
  rw [List.foldl_append]
  exact foldl_countRecord l₂ (List.foldl countRecord zeroStats l₁)

/-- Loop iterations commute with each other. -/
theorem countRecord_right_comm (s : BatchStats) (m₁ m₂ : String × String) :
    countRecord (countRecord s m₁) m₂ = countRecord (countRecord s m₂) m₁ := by
  rw [countRecord_eq_addStats s m₁, countRecord_eq_addStats s m₂,
    countRecord_eq_addStats (addStats s (countRecord zeroStats m₁)) m₂,
    countRecord_eq_addStats (addStats s (countRecord zeroStats m₂)) m₁,
    addStats_assoc, addStats_assoc,
    addStats_comm (countRecord zeroStats m₁) (countRecord zeroStats m₂)]

/-- Permuting the match list does not change the counted result. -/
theorem parseAndCountMatches_perm {l₁ l₂ : List (String × String)}
    (h : l₁.Perm l₂) : parseAndCountMatches l₁ = parseAndCountMatches l₂ := by
  have key : ∀ s, l₁.foldl countRecord s = l₂.foldl countRecord s := by
    induction h with
    | nil => intro s; rfl
    | cons x _ ih => intro s; simp only [List.foldl_cons]; exact ih _
    | swap x y t =>
      intro s
      simp only [List.foldl_cons]
      rw [countRecord_right_comm]
    | trans _ _ ih₁ ih₂ => intro s; rw [ih₁ s, ih₂ s]
  exact key zeroStats

theorem get_all_stocks_stats_eq (rs : List (Option BatchStats)) :
    get_all_stocks_stats rs = some (rs.foldl addBatch zeroStats) := rfl

theorem addBatch_right_comm (s : BatchStats) (r₁ r₂ : Option BatchStats) :
    addBatch (addBatch s r₁) r₂ = addBatch (addBatch s r₂) r₁ := by
  cases r₁ with
  | none => cases r₂ <;> rfl
  | some b₁ =>
    cases r₂ with
    | none => rfl
    | some b₂ =>
      show addStats (addStats s b₁) b₂ = addStats (addStats s b₂) b₁
      rw [addStats_assoc, addStats_assoc, addStats_comm b₁ b₂]

/-- Arrival order of batch futures does not change the aggregate. -/
theorem get_all_stocks_stats_perm {rs₁ rs₂ : List (Option BatchStats)}
    (h : rs₁.Perm rs₂) : get_all_stocks_stats rs₁ = get_all_stocks_stats rs₂ := by
  have key : ∀ s, rs₁.foldl addBatch s = rs₂.foldl addBatch s := by
    induction h with
    | nil => intro s; rfl
    | cons x _ ih => intro s; simp only [List.foldl_cons]; exact ih _
    | swap x y t =>
      intro s
      simp only [List.foldl_cons]
      rw [addBatch_right_comm]
    | trans _ _ ih₁ ih₂ => intro s; rw [ih₁ s, ih₂ s]
  rw [get_all_stocks_stats_eq, get_all_stocks_stats_eq, key zeroStats]

/-- Unfolding of one loop iteration on a counted record. -/
theorem countRecord_some {m : String × String} {p : ℚ}
    (h : recordPct m = some p) (s : BatchStats) : countRecord s m = bump s p := by
  unfold countRecord
  rw [h]

/-- Unfolding of one loop iteration on a skipped record. -/
theorem countRecord_none {m : String × String}
    (h : recordPct m = none) (s : BatchStats) : countRecord s m = s := by
  unfold countRecord
  rw [h]

/-! ### Invariant preservation -/

set_option maxHeartbeats 1600000 in
theorem bump_statsInv (p : ℚ) {s : BatchStats} (h : StatsInv s) :
    StatsInv (bump s p) := by
  have hm : mkRat 99 10 = (99 : ℚ) / 10 := by
    rw [Rat.mkRat_eq_div]; norm_num
  obtain ⟨h1, h2, h3, h4, h5, h6, h7⟩ := h
  cases s
  unfold bump
  rw [hm]
  split_ifs <;>
    first
      | (exfalso; linarith)
      | (simp only [StatsInv] at *; omega)

theorem countRecord_statsInv (m : String × String) {s : BatchStats}
    (h : StatsInv s) : StatsInv (countRecord s m) := by
  unfold countRecord
  cases recordPct m with
  | none => exact h
  | some p => exact bump_statsInv p h

theorem addStats_statsInv {a b : BatchStats} (ha : StatsInv a)
    (hb : StatsInv b) : StatsInv (addStats a b) := by
  cases a; cases b
  simp only [StatsInv, addStats] at *
  omega

theorem foldl_countRecord_statsInv (l : List (String × String))
    {s : BatchStats} (h : StatsInv s) : StatsInv (l.foldl countRecord s) := by
  induction l generalizing s with
  | nil => exact h
  | cons m t ih => exact ih (countRecord_statsInv m h)

theorem zeroStats_statsInv : StatsInv zeroStats := by decide

theorem addBatch_statsInv (r : Option BatchStats) {s : BatchStats}
    (hs : StatsInv s) (hr : ∀ b, r = some b → StatsInv b) :
    StatsInv (addBatch s r) := by
  cases r with
  | none => exact hs
  | some b => exact addStats_statsInv hs (hr b rfl)

theorem foldl_addBatch_statsInv (rs : List (Option BatchStats))
    {s : BatchStats} (hs : StatsInv s)
    (hr : ∀ b, some b ∈ rs → StatsInv b) :
    StatsInv (rs.foldl addBatch s) := by
  induction rs generalizing s with
  | nil => exact hs
  | cons r t ih =>
    refine ih (addBatch_statsInv r hs fun b hb => hr b ?_) fun b hb => hr b ?_
    · rw [hb]; exact List.mem_cons_self _ _
    · exact List.mem_cons_of_mem _ hb

/-! ### Claim theorems for the record parser and the aggregation algebra -/

/-- Claim C2: any raw response text whose matches are exactly three valid
records with percentage changes 12.0, −10.0 and 0.0 plus one malformed
record parses to the counts
total 3, up 1, down 1, flat 1, up3 1, up5 1, limit-up 1, down3 1,
down5 1, limit-down 1. -/
theorem parse_batch_three_valid_one_malformed (t : String)
    (m₁ m₂ m₃ m₄ : String × String)
    (hpm : (findMatches t).Perm [m₁, m₂, m₃, m₄])
    (h₁ : recordPct m₁ = some 12) (h₂ : recordPct m₂ = some (-10))
    (h₃ : recordPct m₃ = some 0) (h₄ : recordPct m₄ = none) :
    parse_and_count t = ⟨1, 1, 1, 1, 1, 1, 1, 1, 1, 3⟩ := by
  unfold parse_and_count
  rw [parseAndCountMatches_perm hpm]
  unfold parseAndCountMatches
  rw [List.foldl_cons, List.foldl_cons, List.foldl_cons, List.foldl_cons,
    List.foldl_nil, countRecord_some h₁, countRecord_some h₂,
    countRecord_some h₃, countRecord_none h₄]
  decide

set_option maxRecDepth 40000 in
/-- Witness for C2 at a concrete four-record response text. -/
theorem parse_batch_three_valid_one_malformed_witness :
    parse_and_count "v_sh600000=\"~~~~~~~~~~~~~~~~~~~~~~~~~~~~~~~~12.0\";v_sh600001=\"~~~~~~~~~~~~~~~~~~~~~~~~~~~~~~~~-10.0\";v_sh600002=\"~~~~~~~~~~~~~~~~~~~~~~~~~~~~~~~~0.0\";v_sh600003=\"1\";"
      = ⟨1, 1, 1, 1, 1, 1, 1, 1, 1, 3⟩ :=
  parse_batch_three_valid_one_malformed _
    ("sh600000", "~~~~~~~~~~~~~~~~~~~~~~~~~~~~~~~~12.0")
    ("sh600001", "~~~~~~~~~~~~~~~~~~~~~~~~~~~~~~~~-10.0")
    ("sh600002", "~~~~~~~~~~~~~~~~~~~~~~~~~~~~~~~~0.0")
    ("sh600003", "1")
    (by decide) (by decide) (by decide) (by decide) (by decide)

/-- Claim C3: parsing then combining is a homomorphism — the counts of a
concatenated match list are the element-wise sum of the per-part counts,
element-wise addition is commutative and associative, and the batch
aggregation is invariant under arrival order. -/
theorem parse_combine_homomorphism :
    (∀ l₁ l₂ : List (String × String),
      parseAndCountMatches (l₁ ++ l₂) =
        addStats (parseAndCountMatches l₁) (parseAndCountMatches l₂)) ∧
    (∀ a b : BatchStats, addStats a b = addStats b a) ∧
    (∀ a b c : BatchStats,
      addStats (addStats a b) c = addStats a (addStats b c)) ∧
    (∀ rs₁ rs₂ : List (Option BatchStats), rs₁.Perm rs₂ →
      get_all_stocks_stats rs₁ = get_all_stocks_stats rs₂) :=
  ⟨parseAndCountMatches_append, addStats_comm, addStats_assoc,
    fun _ _ h => get_all_stocks_stats_perm h⟩

/-- Witness for C3: a two-batch aggregate is unchanged by swapping the
arrival order of a failed and a successful batch. -/
theorem parse_combine_homomorphism_witness :
    get_all_stocks_stats [some ⟨1, 0, 0, 1, 0, 1, 0, 1, 0, 1⟩, none] =
      get_all_stocks_stats [none, some ⟨1, 0, 0, 1, 0, 1, 0, 1, 0, 1⟩] :=
  parse_combine_homomorphism.2.2.2 _ _ (by decide)

/-- Claim C4: the classification thresholds are exact — 3.0 lands in the
3% bucket, 2.999 does not; 9.9 counts as limit-up, 9.89 does not; 0
counts as flat and in no other bucket. -/
theorem threshold_boundaries_exact :
    (bump zeroStats 3).up_3pct = 1 ∧
    (bump zeroStats (mkRat 2999 1000)).up_3pct = 0 ∧
    (bump zeroStats (mkRat 99 10)).limit_up = 1 ∧
    (bump zeroStats (mkRat 989 100)).limit_up = 0 ∧
    bump zeroStats 0 = ⟨0, 0, 1, 0, 0, 0, 0, 0, 0, 1⟩ := by
  decide

/-- Claim C5: a single counted record with percentage change 12.0
increments total, up, up3, up5 and limit-up simultaneously — membership
in a smaller-threshold bucket is not removed by a larger one. -/
theorem record_12pct_fills_all_up_buckets (s : BatchStats)
    (m : String × String) (h : recordPct m = some 12) :
    countRecord s m = addStats s ⟨1, 0, 0, 1, 0, 1, 0, 1, 0, 1⟩ := by
  have hb : bump zeroStats 12 = ⟨1, 0, 0, 1, 0, 1, 0, 1, 0, 1⟩ := by decide
  rw [countRecord_some h, bump_eq_addStats, hb]

/-- Witness for C5 at a concrete record. -/
theorem record_12pct_fills_all_up_buckets_witness :
    countRecord zeroStats
        ("sh600000", "~~~~~~~~~~~~~~~~~~~~~~~~~~~~~~~~12.0") =
      addStats zeroStats ⟨1, 0, 0, 1, 0, 1, 0, 1, 0, 1⟩ :=
  record_12pct_fills_all_up_buckets zeroStats _ (by decide)

/-- Claim C6: a record with empty value, value `"1"`, a no-match marker
in its key, fewer than 33 tilde fields, or an empty or unparseable
field 32 contributes nothing to any counter, including total. -/
theorem malformed_record_contributes_nothing (s : BatchStats)
    (c d : String)
    (h : d = "" ∨ d = "1" ∨ containsL noneMatchMarker c.data = true ∨
      (splitT d.data).length < 33 ∨ (splitT d.data).getD 32 [] = [] ∨
      parseFloatL ((splitT d.data).getD 32 []) = none) :
    countRecord s (c, d) = s := by
  have hnone : recordPct (c, d) = none := by
    simp only [recordPct]
    split_ifs with hA hB hC
    · rfl
    · rfl
    · rfl
    · rcases h with h | h | h | h | h | h
      · exact absurd (Or.inl h) hA
      · exact absurd (Or.inr (Or.inl h)) hA
      · exact absurd (Or.inr (Or.inr h)) hA
      · exact absurd h hB
      · exact absurd h hC
      · exact h
  exact countRecord_none hnone s

/-- Witness for C6 at the sentinel value `"1"`. -/
theorem malformed_record_contributes_nothing_witness :
    countRecord zeroStats ("sh600003", "1") = zeroStats :=
  malformed_record_contributes_nothing zeroStats "sh600003" "1" (by decide)

/-- Claim C8: the parser is total (it is a plain function on strings —
no exception path exists in the embedding), and a record whose
percentage field fails to parse is skipped without affecting the
processing of every other record of the batch. -/
theorem parse_failure_skips_single_record (l₁ l₂ : List (String × String))
    (m : String × String) (h : recordPct m = none) :
    parseAndCountMatches (l₁ ++ m :: l₂) = parseAndCountMatches (l₁ ++ l₂) := by
  rw [parseAndCountMatches_append, parseAndCountMatches_append]
  congr 1
  unfold parseAndCountMatches
  rw [List.foldl_cons, countRecord_none h]

/-- Witness for C8: dropping a concrete malformed record between two
valid ones leaves the batch counts unchanged. -/
theorem parse_failure_skips_single_record_witness :
    parseAndCountMatches
        [("sh600000", "~~~~~~~~~~~~~~~~~~~~~~~~~~~~~~~~12.0"),
         ("sh600003", "1"),
         ("sh600002", "~~~~~~~~~~~~~~~~~~~~~~~~~~~~~~~~0.0")] =
      parseAndCountMatches
        [("sh600000", "~~~~~~~~~~~~~~~~~~~~~~~~~~~~~~~~12.0"),
         ("sh600002", "~~~~~~~~~~~~~~~~~~~~~~~~~~~~~~~~0.0")] :=
  parse_failure_skips_single_record
    [("sh600000", "~~~~~~~~~~~~~~~~~~~~~~~~~~~~~~~~12.0")]
    [("sh600002", "~~~~~~~~~~~~~~~~~~~~~~~~~~~~~~~~0.0")]
    ("sh600003", "1") (by decide)

/-- Claim C10: every parsed batch satisfies the counter invariant
(up + down + flat = total and the monotone magnitude chains), the
invariant is preserved by element-wise addition, and therefore holds of
the summed snapshot counts. -/
theorem parsed_counts_satisfy_invariant :
    (∀ t : String, StatsInv (parse_and_count t)) ∧
    (∀ a b : BatchStats, StatsInv a → StatsInv b → StatsInv (addStats a b)) ∧
    (∀ (rs : List (Option BatchStats)) (s : BatchStats),
      (∀ b, some b ∈ rs → StatsInv b) → get_all_stocks_stats rs = some s →
      StatsInv s) := by
  refine ⟨?_, ?_, ?_⟩
  · intro t
    exact foldl_countRecord_statsInv (findMatches t) zeroStats_statsInv
  · intro a b ha hb
    exact addStats_statsInv ha hb
  · intro rs s hb hs
    rw [get_all_stocks_stats_eq] at hs
    cases hs
    exact foldl_addBatch_statsInv rs zeroStats_statsInv hb

/-- Witness for C10: the invariant holds of a concrete two-batch sum. -/
theorem parsed_counts_satisfy_invariant_witness :
    StatsInv (addStats ⟨1, 1, 1, 1, 1, 1, 1, 1, 1, 3⟩ ⟨1, 0, 0, 1, 0, 1, 0, 1, 0, 1⟩) :=
  parsed_counts_satisfy_invariant.2.1 _ _ (by decide) (by decide)

/-! ### Claim theorems for the aggregator and the index fetcher -/

/-- An aggregation over failed batches only keeps the accumulator. -/
theorem foldl_addBatch_all_none (rs : List (Option BatchStats))
    (s : BatchStats) (h : ∀ r ∈ rs, r = none) : rs.foldl addBatch s = s := by
  induction rs with
  | nil => rfl
  | cons r t ih =>
    have hr : r = none := h r (List.mem_cons_self _ _)
    rw [List.foldl_cons, hr]
    exact ih fun x hx => h x (List.mem_cons_of_mem _ hx)

/-- Counterexample to claim C1: with every batch fetch failed and the
index fetch successful, `get_market_stats` still produces a snapshot
(with all-zero counts) — it does not return no result. -/
theorem all_batches_failed_still_snapshot :
    get_market_stats [none, none] (some ⟨1, 1, 1, 1, 1⟩) =
      some ⟨zeroStats, ⟨1, 1, 1, 1, 1⟩⟩ := by
  decide

/-- Claim C1 (amended): `get_market_stats` returns no snapshot exactly
when the index fetch yields empty; failed batches are absorbed as zero
contributions, so if every batch fails while the index succeeds the
result is a snapshot whose counts are all zero. -/
theorem collect_snapshot_none_iff_index_empty
    (batchResults : List (Option BatchStats)) (idx : Option IndexData) :
    (get_market_stats batchResults idx = none ↔ idx = none) ∧
    (∀ i, idx = some i → (∀ r ∈ batchResults, r = none) →
      get_market_stats batchResults idx = some ⟨zeroStats, i⟩) := by
  constructor
  · unfold get_market_stats
    rw [get_all_stocks_stats_eq]
    cases idx <;> simp
  · intro i hi hall
    subst hi
    unfold get_market_stats
    rw [get_all_stocks_stats_eq, foldl_addBatch_all_none batchResults zeroStats hall]

/-- Witness for the amended C1 at a concrete all-failed batch list. -/
theorem collect_snapshot_none_iff_index_empty_witness :
    get_market_stats [none, none, none] (some ⟨2, 3, 4, 5, 6⟩) =
      some ⟨zeroStats, ⟨2, 3, 4, 5, 6⟩⟩ :=
  (collect_snapshot_none_iff_index_empty [none, none, none] _).2
    ⟨2, 3, 4, 5, 6⟩ rfl (by decide)

/-- Claim C9: the index fetcher extracts exactly fields 3, 4, 31, 32 and
37 of the matched record, and yields the empty result (never a failure)
when the request errors, when no record matches, or when the record has
an insufficient field count. -/
theorem index_fetch_field_extraction (r : Option String) :
    (r = none → get_shanghai_index r = none) ∧
    (∀ t, r = some t → searchIndex t = none → get_shanghai_index r = none) ∧
    (∀ t g, r = some t → searchIndex t = some g →
      (splitT g).length ≤ 37 → get_shanghai_index r = none) ∧
    (∀ t g q3 q4 q31 q32 q37, r = some t → searchIndex t = some g →
      37 < (splitT g).length →
      parseFloatL ((splitT g).getD 3 []) = some q3 →
      parseFloatL ((splitT g).getD 4 []) = some q4 →
      parseFloatL ((splitT g).getD 31 []) = some q31 →
      parseFloatL ((splitT g).getD 32 []) = some q32 →
      parseFloatL ((splitT g).getD 37 []) = some q37 →
      get_shanghai_index r = some ⟨q3, q4, q31, q32, q37⟩) := by
  refine ⟨?_, ?_, ?_, ?_⟩
  · intro h; rw [h]; rfl
  · intro t ht hs
    subst ht
    simp only [get_shanghai_index, hs]
  · intro t g ht hs hlen
    subst ht
    simp only [get_shanghai_index, hs]
    rw [if_neg (by omega)]
  · intro t g q3 q4 q31 q32 q37 ht hs hlen h3 h4 h31 h32 h37
    subst ht
    simp only [get_shanghai_index, hs]
    rw [if_pos hlen, h3, h4, h31, h32, h37]

/-! ### The symbol universe: decimal printing lemmas -/

theorem decDigitsAux_eq (fuel : Nat) :
    ∀ n, n ≤ fuel → decDigitsAux fuel n = Nat.digits 10 n := by
  induction fuel with
  | zero =>
    intro n hn
    have h0 : n = 0 := Nat.le_zero.mp hn
    subst h0
    rw [Nat.digits_zero]
    rfl
  | succ fuel ih =>
    intro n hn
    by_cases h0 : n = 0
    · subst h0; rw [Nat.digits_zero]; rfl
    · have hpos : 0 < n := Nat.pos_of_ne_zero h0
      have hdiv : n / 10 < n := Nat.div_lt_self hpos (by norm_num)
      rw [decDigitsAux, if_neg h0, ih (n / 10) (by omega),
        Nat.digits_def' (by norm_num : (1 : ℕ) < 10) hpos]

theorem decDigits_eq_digits (n : Nat) : decDigits n = Nat.digits 10 n :=
  decDigitsAux_eq n n (Nat.le_refl n)

theorem digitChar_toNat {d : Nat} (h : d < 10) : (digitChar d).toNat = 48 + d := by
  interval_cases d <;> decide

theorem digitChar_isDig {d : Nat} (h : d < 10) : isDig (digitChar d) = true := by
  interval_cases d <;> decide

theorem pyStr_data {n : Nat} (h : n ≠ 0) :
    (pyStr n).data = (Nat.digits 10 n).reverse.map digitChar := by
  rw [pyStr, if_neg h, decDigits_eq_digits]

/-- Horner evaluation of a reversed digit list under `natOfDigits`. -/
theorem foldl_digitChar_reverse (l : List Nat) (h : ∀ d ∈ l, d < 10) :
    ∀ acc : Nat,
      List.foldl (fun a c => 10 * a + (c.toNat - 48)) acc
          (l.reverse.map digitChar) =
        acc * 10 ^ l.length + Nat.ofDigits 10 l := by
  induction l with
  | nil => intro acc; simp
  | cons d t ih =>
    intro acc
    have hd : d < 10 := h d (List.mem_cons_self _ _)
    have ht : ∀ x ∈ t, x < 10 := fun x hx => h x (List.mem_cons_of_mem _ hx)
    simp only [List.reverse_cons, List.map_append, List.map_cons,
      List.map_nil, List.foldl_append, List.foldl_cons, List.foldl_nil]
    rw [ih ht acc, digitChar_toNat hd, Nat.ofDigits_cons, List.length_cons,
      pow_succ]
    have : 48 + d - 48 = d := by omega
    rw [this]
    ring

theorem natOfDigits_pyStr (n : Nat) : natOfDigits (pyStr n).data = n := by
  by_cases h : n = 0
  · subst h; decide
  · rw [natOfDigits, pyStr_data h,
      foldl_digitChar_reverse _ (fun d hd => Nat.digits_lt_base (by norm_num) hd) 0,
      Nat.zero_mul, Nat.zero_add, Nat.ofDigits_digits]

theorem natOfDigits_replicate_zero (k : Nat) (l : List Char) :
    natOfDigits (List.replicate k '0' ++ l) = natOfDigits l := by
  induction k with
  | zero => rfl
  | succ k ih =>
    rw [List.replicate_succ, List.cons_append, natOfDigits, List.foldl_cons]
    exact ih

theorem pyStr_length {n : Nat} (h : n ≠ 0) :
    (pyStr n).length = Nat.log 10 n + 1 := by
  show (pyStr n).data.length = _
  rw [pyStr_data h, List.length_map, List.length_reverse,
    Nat.digits_len 10 n (by norm_num) h]

theorem pyStr_length_six {n : Nat} (h1 : 100000 ≤ n) (h2 : n < 1000000) :
    (pyStr n).length = 6 := by
  rw [pyStr_length (by omega)]
  have : Nat.log 10 n = 5 :=
    Nat.log_eq_of_pow_le_of_lt_pow (by norm_num; omega) (by norm_num; omega)
  omega

theorem pyFmt06_eq_pyStr {n : Nat} (h1 : 100000 ≤ n) (h2 : n < 1000000) :
    pyFmt06 n = pyStr n := by
  apply String.ext
  show List.replicate (6 - (pyStr n).length) '0' ++ (pyStr n).data = _
  rw [pyStr_length_six h1 h2]
  rfl

theorem natOfDigits_pyFmt06 (n : Nat) : natOfDigits (pyFmt06 n).data = n := by
  show natOfDigits (List.replicate (6 - (pyStr n).length) '0' ++ (pyStr n).data) = n
  rw [natOfDigits_replicate_zero, natOfDigits_pyStr]

theorem pyStr_length_le_six {n : Nat} (h : n < 1000000) :
    (pyStr n).length ≤ 6 := by
  by_cases h0 : n = 0
  · subst h0; decide
  · rw [pyStr_length h0]
    have : Nat.log 10 n < 6 := Nat.log_lt_of_lt_pow h0 (by norm_num; omega)
    omega

theorem pyFmt06_length {n : Nat} (h : n < 1000000) :
    (pyFmt06 n).data.length = 6 := by
  show (List.replicate (6 - (pyStr n).length) '0' ++ (pyStr n).data).length = 6
  rw [List.length_append, List.length_replicate]
  have := pyStr_length_le_six h
  show 6 - (pyStr n).length + (pyStr n).data.length = 6
  have hd : (pyStr n).data.length = (pyStr n).length := rfl
  omega

theorem pyStr_all_digits (n : Nat) : ∀ c ∈ (pyStr n).data, isDig c = true := by
  by_cases h : n = 0
  · subst h; decide
  · rw [pyStr_data h]
    intro c hc
    rcases List.mem_map.mp hc with ⟨d, hd, rfl⟩
    exact digitChar_isDig
      (Nat.digits_lt_base (by norm_num) (List.mem_reverse.mp hd))

theorem pyFmt06_all_digits (n : Nat) :
    ∀ c ∈ (pyFmt06 n).data, isDig c = true := by
  intro c hc
  rcases List.mem_append.mp hc with hc | hc
  · rw [(List.mem_replicate.mp hc).2]; decide
  · exact pyStr_all_digits n c hc

/-- The numeric key recovers the generated number from a prefixed,
zero-padded symbol. -/
theorem numKey_code (p : String) (hp : p.data.length = 2) (n : Nat) :
    numKey (p ++ pyFmt06 n) = n := by
  unfold numKey
  rw [String.data_append, ← hp, List.drop_left, natOfDigits_pyFmt06]

theorem numKey_code_pyStr (p : String) (hp : p.data.length = 2) {n : Nat}
    (h1 : 100000 ≤ n) (h2 : n < 1000000) : numKey (p ++ pyStr n) = n := by
  rw [← pyFmt06_eq_pyStr h1 h2, numKey_code p hp]

/-- Mapping the numeric key over one unpadded segment recovers its
numeric range. -/
theorem map_numKey_segment (p : String) (hp : p.data.length = 2)
    (a n : Nat) (ha : 100000 ≤ a) (hn : a + n ≤ 1000000) :
    ((List.range' a n).map fun i => p ++ pyStr i).map numKey =
      List.range' a n := by
  rw [List.map_map]
  have : ∀ i ∈ List.range' a n, (numKey ∘ fun i => p ++ pyStr i) i = id i := by
    intro i hi
    have hb := List.mem_range'_1.mp hi
    exact numKey_code_pyStr p hp (by omega) (by omega)
  rw [List.map_congr_left this, List.map_id]

/-- Mapping the numeric key over the padded Shenzhen main segment. -/
theorem map_numKey_padded_segment (a n : Nat) :
    ((List.range' a n).map fun i => "sz" ++ pyFmt06 i).map numKey =
      List.range' a n := by
  rw [List.map_map]
  have : ∀ i ∈ List.range' a n,
      (numKey ∘ fun i => "sz" ++ pyFmt06 i) i = id i := by
    intro i _
    exact numKey_code "sz" (by decide) i
  rw [List.map_congr_left this, List.map_id]

theorem map_numKey_codes :
    get_all_stock_codes.map numKey = universeRanges := by
  unfold get_all_stock_codes universeRanges
  rw [List.map_append, List.map_append, List.map_append, List.map_append,
    List.map_append, List.map_append,
    map_numKey_segment "sh" (by decide) 600000 10000 (by norm_num) (by norm_num),
    map_numKey_segment "sh" (by decide) 688000 2000 (by norm_num) (by norm_num),
    map_numKey_padded_segment 1 3999,
    map_numKey_segment "sz" (by decide) 300000 10000 (by norm_num) (by norm_num),
    map_numKey_segment "bj" (by decide) 430000 10000 (by norm_num) (by norm_num),
    map_numKey_segment "bj" (by decide) 830000 10000 (by norm_num) (by norm_num),
    map_numKey_segment "bj" (by decide) 870000 10000 (by norm_num) (by norm_num)]

theorem universeRanges_nodup : universeRanges.Nodup := by
  unfold universeRanges
  rw [List.nodup_append]
  refine ⟨?_, List.nodup_range' _ _, ?_⟩
  · rw [List.nodup_append]
    refine ⟨?_, List.nodup_range' _ _, ?_⟩
    · rw [List.nodup_append]
      refine ⟨?_, List.nodup_range' _ _, ?_⟩
      · rw [List.nodup_append]
        refine ⟨?_, List.nodup_range' _ _, ?_⟩
        · rw [List.nodup_append]
          refine ⟨?_, List.nodup_range' _ _, ?_⟩
          · rw [List.nodup_append]
            refine ⟨List.nodup_range' _ _, List.nodup_range' _ _, ?_⟩
            intro x hx hy
            rw [List.mem_range'_1] at hx hy
            omega
          · intro x hx hy
            simp only [List.mem_append, List.mem_range'_1] at hx
            rw [List.mem_range'_1] at hy
            omega
        · intro x hx hy
          simp only [List.mem_append, List.mem_range'_1] at hx
          rw [List.mem_range'_1] at hy
          omega
      · intro x hx hy
        simp only [List.mem_append, List.mem_range'_1] at hx
        rw [List.mem_range'_1] at hy
        omega
    · intro x hx hy
      simp only [List.mem_append, List.mem_range'_1] at hx
      rw [List.mem_range'_1] at hy
      omega
  · intro x hx hy
    simp only [List.mem_append, List.mem_range'_1] at hx
    rw [List.mem_range'_1] at hy
    omega

theorem get_all_stock_codes_nodup : get_all_stock_codes.Nodup :=
  List.Nodup.of_map numKey (map_numKey_codes ▸ universeRanges_nodup)

/-- Membership characterisation of the generated universe: exactly the
seven numeric segments, each with its market code. -/
theorem mem_get_all_stock_codes (s : String) :
    s ∈ get_all_stock_codes ↔
      ((∃ i, (600000 ≤ i ∧ i < 610000) ∧ "sh" ++ pyStr i = s) ∨
       (∃ i, (688000 ≤ i ∧ i < 690000) ∧ "sh" ++ pyStr i = s) ∨
       (∃ i, (1 ≤ i ∧ i < 4000) ∧ "sz" ++ pyFmt06 i = s) ∨
       (∃ i, (300000 ≤ i ∧ i < 310000) ∧ "sz" ++ pyStr i = s) ∨
       (∃ i, (430000 ≤ i ∧ i < 440000) ∧ "bj" ++ pyStr i = s) ∨
       (∃ i, (830000 ≤ i ∧ i < 840000) ∧ "bj" ++ pyStr i = s) ∨
       (∃ i, (870000 ≤ i ∧ i < 880000) ∧ "bj" ++ pyStr i = s)) := by
  simp only [get_all_stock_codes, List.mem_append, List.mem_map,
    List.mem_range'_1, Nat.reduceAdd, or_assoc]

/-- Every prefixed, zero-padded code splits into a two-letter market
code and six digit characters. -/
theorem universe_code_shape (p : String) (hp : p.data.length = 2)
    (hp3 : p = "sh" ∨ p = "sz" ∨ p = "bj") (n : Nat) (hn : n < 1000000) :
    ∃ q d, (p ++ pyFmt06 n).data = q ++ d ∧ q.length = 2 ∧
      (q = "sh".data ∨ q = "sz".data ∨ q = "bj".data) ∧ d.length = 6 ∧
      ∀ c ∈ d, isDig c = true := by
  refine ⟨p.data, (pyFmt06 n).data, String.data_append p (pyFmt06 n), hp,
    ?_, pyFmt06_length hn, pyFmt06_all_digits n⟩
  rcases hp3 with h | h | h <;> rw [h] <;> simp

set_option maxRecDepth 40000 in
/-- Witness for C9 at a concrete index response text. -/
theorem index_fetch_field_extraction_witness :
    get_shanghai_index
        (some "zz v_sh000001=\"~~~3031.23~3027.33~~~~~~~~~~~~~~~~~~~~~~~~~~~3.9~0.13~~~~~123456.7\";") =
      some ⟨mkRat 303123 100, mkRat 302733 100, mkRat 39 10,
        mkRat 13 100, mkRat 1234567 10⟩ :=
  (index_fetch_field_extraction _).2.2.2 _
    "~~~3031.23~3027.33~~~~~~~~~~~~~~~~~~~~~~~~~~~3.9~0.13~~~~~123456.7".data
    _ _ _ _ _ rfl (by decide) (by decide) (by decide) (by decide)
    (by decide) (by decide) (by decide)

/-- Claim C7: the generated symbol universe has 55999 entries (the sum
of the seven range sizes), contains no duplicates, every entry is a
two-letter market code followed by exactly six decimal digits, and its
members are exactly the symbols of the seven numeric segments (Shanghai
main and STAR, Shenzhen zero-padded main and ChiNext, the three Beijing
ranges). -/
theorem stock_universe_correct :
    get_all_stock_codes.length = 55999 ∧
    get_all_stock_codes.Nodup ∧
    (∀ s ∈ get_all_stock_codes, ∃ p d, s.data = p ++ d ∧ p.length = 2 ∧
      (p = "sh".data ∨ p = "sz".data ∨ p = "bj".data) ∧ d.length = 6 ∧
      ∀ c ∈ d, isDig c = true) ∧
    (∀ s : String, s ∈ get_all_stock_codes ↔
      ((∃ i, (600000 ≤ i ∧ i < 610000) ∧ "sh" ++ pyStr i = s) ∨
       (∃ i, (688000 ≤ i ∧ i < 690000) ∧ "sh" ++ pyStr i = s) ∨
       (∃ i, (1 ≤ i ∧ i < 4000) ∧ "sz" ++ pyFmt06 i = s) ∨
       (∃ i, (300000 ≤ i ∧ i < 310000) ∧ "sz" ++ pyStr i = s) ∨
       (∃ i, (430000 ≤ i ∧ i < 440000) ∧ "bj" ++ pyStr i = s) ∨
       (∃ i, (830000 ≤ i ∧ i < 840000) ∧ "bj" ++ pyStr i = s) ∨
       (∃ i, (870000 ≤ i ∧ i < 880000) ∧ "bj" ++ pyStr i = s))) := by
  refine ⟨?_, get_all_stock_codes_nodup, ?_, mem_get_all_stock_codes⟩
  · simp [get_all_stock_codes, List.length_append, List.length_map,
      List.length_range']
  · intro s hs
    rw [mem_get_all_stock_codes] at hs
    rcases hs with ⟨i, ⟨h1, h2⟩, rfl⟩ | ⟨i, ⟨h1, h2⟩, rfl⟩ |
      ⟨i, ⟨h1, h2⟩, rfl⟩ | ⟨i, ⟨h1, h2⟩, rfl⟩ | ⟨i, ⟨h1, h2⟩, rfl⟩ |
      ⟨i, ⟨h1, h2⟩, rfl⟩ | ⟨i, ⟨h1, h2⟩, rfl⟩
    · rw [← pyFmt06_eq_pyStr (by omega) (by omega)]
      exact universe_code_shape "sh" rfl (Or.inl rfl) i (by omega)
    · rw [← pyFmt06_eq_pyStr (by omega) (by omega)]
      exact universe_code_shape "sh" rfl (Or.inl rfl) i (by omega)
    · exact universe_code_shape "sz" rfl (Or.inr (Or.inl rfl)) i (by omega)
    · rw [← pyFmt06_eq_pyStr (by omega) (by omega)]
      exact universe_code_shape "sz" rfl (Or.inr (Or.inl rfl)) i (by omega)
    · rw [← pyFmt06_eq_pyStr (by omega) (by omega)]
      exact universe_code_shape "bj" rfl (Or.inr (Or.inr rfl)) i (by omega)
    · rw [← pyFmt06_eq_pyStr (by omega) (by omega)]
      exact universe_code_shape "bj" rfl (Or.inr (Or.inr rfl)) i (by omega)
    · rw [← pyFmt06_eq_pyStr (by omega) (by omega)]
      exact universe_code_shape "bj" rfl (Or.inr (Or.inr rfl)) i (by omega)

/-- Witness for C7: the shape property applied to one concrete symbol,
whose membership is obtained from the characterisation itself. -/
theorem stock_universe_correct_witness :
    ∃ p d, ("sh" ++ pyStr 600123).data = p ++ d ∧ p.length = 2 ∧
      (p = "sh".data ∨ p = "sz".data ∨ p = "bj".data) ∧ d.length = 6 ∧
      ∀ c ∈ d, isDig c = true :=
  stock_universe_correct.2.2.1 _
    ((stock_universe_correct.2.2.2 _).mpr
      (Or.inl ⟨600123, ⟨by norm_num, by norm_num⟩, rfl⟩))

end AStock
